import Mathlib

/-!
Verification of behavioural claims about pyrra's `main.go` (API server).

The Go code is shallowly embedded: every `float64` value is modelled by `FP`,
exact rationals extended with the IEEE-754 special values NaN and ±∞ (exact
rational arithmetic stands in for rounded binary arithmetic; the claims under
study are about the algebraic shape of the results, not about rounding).
Go maps keyed by fingerprints are modelled as association lists; Go `nil`
pointer dereferences (runtime panics) surface as `Option.none` results.
Where Go iterates a map in unspecified order, the model fixes insertion
order; every theorem below is insensitive to that order (it only quantifies
over membership or sorts the result).
-/

namespace Pyrra

/-- Model of a Go `float64` value: NaN, signed infinity, or a finite value
represented exactly as a rational. -/
inductive FP where
  | nan : FP
  | inf : Bool → FP
  | fin : ℚ → FP
deriving DecidableEq, Repr

/-- IEEE subtraction on the model (finite arithmetic is exact). -/
def FP.sub : FP → FP → FP
  | .nan, _ => .nan
  | _, .nan => .nan
  | .fin a, .fin b => .fin (a - b)
  | .fin _, .inf s => .inf (!s)
  | .inf s, .fin _ => .inf s
  | .inf s, .inf t => if s = t then .nan else .inf s

/-- IEEE division on the model: `0/0 = NaN`, `x/0 = ±∞` for finite `x ≠ 0`. -/
def FP.div : FP → FP → FP
  | .nan, _ => .nan
  | _, .nan => .nan
  | .fin a, .fin b =>
      if b = 0 then (if a = 0 then .nan else .inf (decide (0 < a)))
      else .fin (a / b)
  | .fin _, .inf _ => .fin 0
  | .inf s, .fin b => if b < 0 then .inf (!s) else .inf s
  | .inf _, .inf _ => .nan

/-- IEEE multiplication on the model: `0 * ∞ = NaN`. -/
def FP.mul : FP → FP → FP
  | .nan, _ => .nan
  | _, .nan => .nan
  | .fin a, .fin b => .fin (a * b)
  | .fin a, .inf s => if a = 0 then .nan else .inf (s == decide (0 < a))
  | .inf s, .fin b => if b = 0 then .nan else .inf (s == decide (0 < b))
  | .inf s, .inf t => .inf (s == t)

/-- `math.IsNaN`. -/
def FP.isNaN : FP → Bool
  | .nan => true
  | _ => false

/-- The Go comparison `x == 0` on a `float64` (false for NaN and ±∞). -/
def FP.isZero : FP → Bool
  | .fin q => q == 0
  | _ => false

/-- `openapiserver.ObjectiveStatusAvailability` (the fields used by
`GetObjectiveStatus`). -/
structure Availability where
  percentage : FP
  total : FP
  errors : FP
deriving DecidableEq, Repr

/-- `openapiserver.ObjectiveStatusBudget`. -/
structure Budget where
  total : FP
  remaining : FP
  max : FP
deriving DecidableEq, Repr

/-- One entry of the `statusSlice` built by `GetObjectiveStatus`, tagged with
the fingerprint whose map entry produced it. -/
structure ObjectiveStatus where
  fingerprint : ℕ
  availability : Availability
  budget : Budget
deriving DecidableEq, Repr

/-- Insert-or-overwrite on an association list: the model of writing
`m[k] = v` into a Go map. -/
def upsert {α β : Type} [DecidableEq α] (k : α) (v : β) :
    List (α × β) → List (α × β)
  | [] => [(k, v)]
  | (k', v') :: rest =>
      if k' = k then (k, v) :: rest else (k', v') :: upsert k v rest

/-- An instant-query result vector as consumed by `GetObjectiveStatus`:
each sample reduced to its fingerprint and its `float64` value. -/
abbrev FpVector := List (ℕ × FP)

/-- The first loop of `GetObjectiveStatus` (main.go:398-411): build the
`statuses` map from the totals vector, one `ObjectiveStatus` per fingerprint
with `Percentage = 1`, `Total = v.Value` and zero-valued `Errors`. -/
def buildStatuses (totals : FpVector) : List (ℕ × Availability) :=
  totals.foldl
    (fun acc fv =>
      upsert fv.1 { percentage := FP.fin 1, total := fv.2, errors := FP.fin 0 } acc)
    []

/-- The update applied to a status when the errors loop visits its
fingerprint: `s.Availability.Errors = v; s.Availability.Percentage =
1 - Errors/Total` (main.go:419-421). -/
def updAvailability (a : Availability) (e : FP) : Availability :=
  { a with errors := e, percentage := FP.sub (FP.fin 1) (FP.div e a.total) }

/-- The second loop of `GetObjectiveStatus` (main.go:418-422): for each
errors-vector sample, fetch `statuses[fingerprint]` and mutate it.  The Go
code dereferences the pointer returned by the map lookup without a nil
check, so a fingerprint absent from `statuses` is a runtime panic, modelled
as `none`. -/
def applyErrors (sts : List (ℕ × Availability)) :
    FpVector → Option (List (ℕ × Availability))
  | [] => some sts
  | fv :: rest =>
      match sts.lookup fv.1 with
      | none => none
      | some a =>
          applyErrors
            (sts.map (fun p => if p.1 = fv.1 then (fv.1, updAvailability a fv.2) else p))
            rest

/-- The final loop of `GetObjectiveStatus` (main.go:426-444): compute the
budget fields, drop entries with `Availability.Total == 0`, and replace NaN
`Percentage`/`Budget.Remaining` with 1. -/
def finalizeStatuses (target : ℚ) (sts : List (ℕ × Availability)) :
    List ObjectiveStatus :=
  sts.filterMap (fun p =>
    let a := p.2
    let bTotal := FP.sub (FP.fin 1) (FP.fin target)
    let ratio := FP.div a.errors a.total
    let bRemaining := FP.div (FP.sub bTotal ratio) bTotal
    let bMax := FP.mul bTotal a.total
    if a.total.isZero then none
    else
      some
        { fingerprint := p.1
          availability :=
            { a with percentage := if a.percentage.isNaN then FP.fin 1 else a.percentage }
          budget :=
            { total := bTotal
              remaining := if bRemaining.isNaN then FP.fin 1 else bRemaining
              max := bMax } })

/-- `GetObjectiveStatus` from the point where both instant queries have
returned vectors: `none` models the nil-pointer panic in the errors loop. -/
def getObjectiveStatus (target : ℚ) (totals errs : FpVector) :
    Option (List ObjectiveStatus) :=
  (applyErrors (buildStatuses totals) errs).map (finalizeStatuses target)

/-! ### GetObjectiveErrorBudget's grouping merge (main.go:466-501) -/

/-- A parsed label matcher (`*labels.Matcher`); the matcher type is
irrelevant to the claims. -/
structure Matcher where
  name : String
  value : String
deriving DecidableEq, Repr

/-- A query component carrying label matchers (the part of the objective's
query that the merge mutates). -/
structure QueryComponent where
  labelMatchers : List Matcher
deriving DecidableEq, Repr

/-- The `Ratio` indicator: `Errors`, `Total` and `Grouping`. -/
structure RatioIndicator where
  errors : QueryComponent
  total : QueryComponent
  grouping : List String
deriving DecidableEq, Repr

/-- The `Latency` indicator: `Success`, `Total` and `Grouping`. -/
structure LatencyIndicator where
  success : QueryComponent
  total : QueryComponent
  grouping : List String
deriving DecidableEq, Repr

/-- `objective.Indicator`: both indicator pointers, `none` modelling `nil`. -/
structure Indicator where
  ratio : Option RatioIndicator
  latency : Option LatencyIndicator
deriving DecidableEq, Repr

/-- The grouping set left after deleting every matcher name:
`groupings := map from list; for m := range matchers  delete(groupings,
m.Name)`.  The Go map collapses duplicates and iterates in arbitrary order;
the model fixes first-occurrence order, which no theorem below depends on. -/
def removeGroupings (grouping : List String) (matchers : List Matcher) :
    List String :=
  grouping.dedup.filter (fun g => matchers.all (fun m => m.name ≠ g))

/-- The grouping merge of `GetObjectiveErrorBudget` (main.go:466-501).
The `Latency` branch builds its grouping set from
`objective.Indicator.Ratio.Grouping` and writes the remainder back to
`objective.Indicator.Ratio.Grouping`; when `Ratio` is `nil` this
dereferences a nil pointer (modelled as `none`). -/
def mergeGroupingErrorBudget (ind : Indicator) (matchers : List Matcher) :
    Option Indicator :=
  let ind1 : Indicator :=
    match ind.ratio with
    | none => ind
    | some r =>
        { ind with
          ratio := some
            { errors := ⟨r.errors.labelMatchers ++ matchers⟩
              total := ⟨r.total.labelMatchers ++ matchers⟩
              grouping := removeGroupings r.grouping matchers } }
  match ind1.latency with
  | none => some ind1
  | some l =>
      match ind1.ratio with
      | none => none
      | some r =>
          some
            { ind1 with
              latency := some
                { success := ⟨l.success.labelMatchers ++ matchers⟩
                  total := ⟨l.total.labelMatchers ++ matchers⟩
                  grouping := l.grouping }
              ratio := some { r with grouping := removeGroupings r.grouping matchers } }

/-! ### Range endpoints: effective range, step and timeRange
(main.go:504-511, 746-766, 846-866) -/

/-- The shared range-defaulting block: `start := now.Add(-1h); end := now;
if startTimestamp != 0 && endTimestamp != 0 { start, end = given }`.
Instants are unix seconds.  This exact block appears verbatim in
`GetObjectiveErrorBudget`, `GetREDRequests` and `GetREDErrors`. -/
def effectiveRange (now startTs endTs : Int) : Int × Int :=
  let start := now - 3600
  let e := now
  if startTs ≠ 0 ∧ endTs ≠ 0 then (startTs, endTs) else (start, e)

/-- `step := end.Sub(start) / 1000`: a Go `time.Duration` division (integer,
nanoseconds); `end.Sub(start)` for unix-second instants is the difference in
seconds scaled to nanoseconds. -/
def queryStep (startSec endSec : Int) : Int :=
  ((endSec - startSec) * 1000000000).tdiv 1000

/-- The `timeRange` threshold ladder of `GetREDRequests`/`GetREDErrors`
(main.go:756-766, 856-866), in nanoseconds. -/
def timeRangeFor (startSec endSec : Int) : Int :=
  let diff := (endSec - startSec) * 1000000000
  if diff ≥ 28 * 24 * 3600 * 1000000000 then 3 * 3600 * 1000000000
  else if diff ≥ 7 * 24 * 3600 * 1000000000 then 3600 * 1000000000
  else if diff ≥ 24 * 3600 * 1000000000 then 1800 * 1000000000
  else if diff ≥ 12 * 3600 * 1000000000 then 900 * 1000000000
  else 300 * 1000000000

/-- The range parameters a RED endpoint passes to query generation and the
backend. -/
structure RangeParams where
  start : Int
  endTime : Int
  step : Int
  timeRange : Int
deriving DecidableEq, Repr

/-- The range/step/timeRange computation of `GetREDRequests`
(main.go:746-766). -/
def getREDRequestsParams (now startTs endTs : Int) : RangeParams :=
  let r := effectiveRange now startTs endTs
  { start := r.1, endTime := r.2, step := queryStep r.1 r.2,
    timeRange := timeRangeFor r.1 r.2 }

/-- The range/step/timeRange computation of `GetREDErrors`
(main.go:846-866), a verbatim copy of the `GetREDRequests` block. -/
def getREDErrorsParams (now startTs endTs : Int) : RangeParams :=
  let r := effectiveRange now startTs endTs
  { start := r.1, endTime := r.2, step := queryStep r.1 r.2,
    timeRange := timeRangeFor r.1 r.2 }

/-- The range/step computation of `GetObjectiveErrorBudget`
(main.go:504-513); this endpoint has no `timeRange`. -/
def getObjectiveErrorBudgetRange (now startTs endTs : Int) : Int × Int × Int :=
  let r := effectiveRange now startTs endTs
  (r.1, r.2, queryStep r.1 r.2)

/-! ### Prometheus values and the query cache (main.go:265-318) -/

/-- An instant-vector sample: label set and `float64` value. -/
structure PromSample where
  metric : List (String × String)
  value : FP
deriving DecidableEq, Repr

/-- A range-matrix series: label set and (timestamp in ms, value) samples,
`none` modelling a NaN value. -/
structure PromStream where
  metric : List (String × String)
  values : List (Int × Option ℚ)
deriving DecidableEq, Repr

/-- `model.Value`: the result shapes relevant to main.go. -/
inductive PromValue where
  | vector : List PromSample → PromValue
  | matrix : List PromStream → PromValue
  | scalar : FP → PromValue
deriving DecidableEq, Repr

/-- One ristretto cache entry as written by `promCache` (`SetWithTTL(hash,
value, cost, ttl)`); `ttl` in nanoseconds. -/
structure CacheEntry where
  key : ℕ
  value : PromValue
  cost : ℕ
  ttl : ℕ
deriving DecidableEq, Repr

/-- The cache contents, keyed by the xxhash of the query (hashing is
external; theorems take the hash as input). -/
abbrev Cache := List CacheEntry

/-- `p.cache.Get(hash)`. -/
def cacheGet (c : Cache) (k : ℕ) : Option PromValue :=
  (c.find? (fun e => e.key == k)).map (fun e => e.value)

/-- The backend's `(value, warnings, err)` triple. -/
structure BackendResult where
  value : Except Unit PromValue
  warnings : List String

/-- The observable outcome of a `promCache` call: the returned value
(`none` when the call returns an error), returned warnings, whether the
backend was consulted, and the cache afterwards. -/
structure CacheQueryResult where
  value : Option PromValue
  warnings : List String
  usedBackend : Bool
  cache : Cache
deriving DecidableEq, Repr

/-- `promCache.Query` (main.go:270-292): on a hit the cached value is
returned as `model.Value` with no further check; on a miss the backend is
queried and a non-empty vector with no warnings is stored with cost 10 and
TTL 5 minutes. -/
def promCacheQuery (cache : Cache) (hash : ℕ) (backend : BackendResult) :
    CacheQueryResult :=
  match cacheGet cache hash with
  | some v => { value := some v, warnings := [], usedBackend := false, cache := cache }
  | none =>
      match backend.value with
      | .error _ =>
          { value := none, warnings := backend.warnings, usedBackend := true,
            cache := cache }
      | .ok v =>
          let cache' :=
            match v with
            | .vector l =>
                if 0 < l.length ∧ backend.warnings.length = 0 then
                  cache ++ [{ key := hash, value := v, cost := 10, ttl := 300000000000 }]
                else cache
            | _ => cache
          { value := some v, warnings := backend.warnings, usedBackend := true,
            cache := cache' }

/-- `promCache.QueryRange` (main.go:294-318): as `Query` but admitting only
non-empty matrices, with cost 100 and TTL 10 minutes. -/
def promCacheQueryRange (cache : Cache) (hash : ℕ) (backend : BackendResult) :
    CacheQueryResult :=
  match cacheGet cache hash with
  | some v => { value := some v, warnings := [], usedBackend := false, cache := cache }
  | none =>
      match backend.value with
      | .error _ =>
          { value := none, warnings := backend.warnings, usedBackend := true,
            cache := cache }
      | .ok v =>
          let cache' :=
            match v with
            | .matrix l =>
                if 0 < l.length ∧ backend.warnings.length = 0 then
                  cache ++ [{ key := hash, value := v, cost := 100, ttl := 600000000000 }]
                else cache
            | _ => cache
          { value := some v, warnings := backend.warnings, usedBackend := true,
            cache := cache' }

/-! ### The thanos transport adapter (thanosClient.Do, main.go:212-248) -/

/-- A form field value, abstracting `strconv.ParseFloat`: `num q` is a
string that parses as the float `q`, `raw s` one that does not parse. -/
inductive FVal where
  | num : ℚ → FVal
  | raw : String → FVal
deriving DecidableEq, Repr

/-- `strconv.ParseFloat` on a form value. -/
def parseFloat : FVal → Option ℚ
  | .num q => some q
  | .raw _ => none

/-- A parsed request body (`url.Values`). -/
abbrev Form := List (String × FVal)

/-- `url.Values.Get`: first value, empty string when absent. -/
def formGet (q : Form) (k : String) : FVal :=
  (q.lookup k).getD (FVal.raw "")

/-- `url.Values.Set`. -/
def formSet (q : Form) (k : String) (v : FVal) : Form :=
  upsert k v q

/-- `strings.HasSuffix`. -/
def goHasSuffix (s suf : String) : Bool :=
  s.toList.drop (s.toList.length - suf.toList.length) == suf.toList

/-- `thanosClient.Do` (main.go:212-248) from the point where the request
body has been read: `body` is the outcome of `url.ParseQuery`
(`.error` when the body is not a parseable query string).  The adapter
forces `partial_response=false`, and for range queries parses `start`/`end`
and sets `max_source_resolution` by thresholding the span. -/
def thanosDo (path : String) (body : Except Unit Form) : Except Unit Form :=
  match body with
  | .error e => .error e
  | .ok query =>
      let query := formSet query "partial_response" (FVal.raw "false")
      if goHasSuffix path "/api/v1/query_range" then
        match parseFloat (formGet query "start") with
        | none => .error ()
        | some s =>
            match parseFloat (formGet query "end") with
            | none => .error ()
            | some e =>
                if e - s ≥ 28 * 24 * 60 * 60 then
                  .ok (formSet query "max_source_resolution" (FVal.raw "1h"))
                else if e - s ≥ 7 * 24 * 60 * 60 then
                  .ok (formSet query "max_source_resolution" (FVal.raw "5m"))
                else .ok query
      else .ok query

/-! ### GetMultiBurnrateAlerts per-rule assembly (main.go:603-708) -/

/-- `openapiserver.Burnrate`: window in milliseconds, current burn rate
(`-1` when unavailable), and the query string. -/
structure Burnrate where
  window : Int
  current : FP
  query : String
deriving DecidableEq, Repr

/-- `openapiserver.MultiBurnrateAlert`. -/
structure MultiBurnrateAlert where
  severity : String
  For : Int
  factor : ℚ
  short : Burnrate
  long : Burnrate
  state : String
deriving DecidableEq, Repr

/-- One base alert rule from `objective.Alerts()`: durations in
nanoseconds (Go `time.Duration`). -/
structure BaseAlert where
  severity : String
  For : Int
  factor : ℚ
  short : Int
  long : Int
  queryShort : String
  queryLong : String
deriving DecidableEq, Repr

/-- `model.LabelSet` lookup (Go map read, default `""`). -/
def labelGet (metric : List (String × String)) (k : String) : String :=
  (metric.lookup k).getD ""

/-- The short/long burn-rate goroutine body (main.go:639-673): on query error, non-vector result, or a vector whose length is
not 1, `b.Current` keeps its `-1` default; otherwise it becomes the single
sample's value. -/
def burnrateCurrent (res : Except Unit PromValue) : FP :=
  match res with
  | .error _ => FP.fin (-1)
  | .ok (.vector [s]) => s.value
  | .ok _ => FP.fin (-1)

/-- The alert-state goroutine body (main.go:677-708): `alertstate` label of
the single returned series overrides the default `inactive` only when the
query succeeded, returned exactly one series, its value is 1 and the label
is `pending` or `firing`. -/
def alertState (res : Except Unit PromValue) : String :=
  match res with
  | .error _ => "inactive"
  | .ok (.vector [s]) =>
      if s.value ≠ FP.fin 1 then "inactive"
      else
        let a := labelGet s.metric "alertstate"
        if a = "pending" then "pending"
        else if a = "firing" then "firing"
        else "inactive"
  | .ok _ => "inactive"

/-- The per-rule result assembled after `wg.Wait()` (main.go:712-719): the
three branch evaluations are joined and the rule is emitted with windows
converted by `Milliseconds()` (nanoseconds divided by 10^6, truncated). -/
def multiBurnrateAlert (ba : BaseAlert)
    (shortRes longRes alertRes : Except Unit PromValue) : MultiBurnrateAlert :=
  { severity := ba.severity
    For := ba.For.tdiv 1000000
    factor := ba.factor
    short := { window := ba.short.tdiv 1000000,
               current := burnrateCurrent shortRes, query := ba.queryShort }
    long := { window := ba.long.tdiv 1000000,
              current := burnrateCurrent longRes, query := ba.queryLong }
    state := alertState alertRes }

/-! ### matrixToValues (main.go:917-984) -/

/-- One matrix sample pair: timestamp in milliseconds and value
(`none` modelling NaN). -/
abbrev SamplePair := Int × Option ℚ

/-- `int64(pair.Timestamp / 1000)`: milliseconds to seconds by Go integer
division (truncation toward zero). -/
def tsSec (t : Int) : Int := t.tdiv 1000

/-- `if _, ok := pairs[t]; !ok { pairs[t] = make([]float64, series) }`:
allocate the zero row for a new timestamp key. -/
def insertKey (series : ℕ) (t : Int) (acc : List (Int × List ℚ)) :
    List (Int × List ℚ) :=
  if acc.any (fun e => e.1 == t) then acc
  else acc ++ [(t, List.replicate series 0)]

/-- `pairs[t][i] = float64(pair.Value)`. -/
def setVal (t : Int) (i : ℕ) (v : ℚ) (acc : List (Int × List ℚ)) :
    List (Int × List ℚ) :=
  acc.map (fun e => if e.1 = t then (e.1, e.2.set i v) else e)

/-- Processing of one sample of stream `i` in the multi-series loop of
`matrixToValues` (main.go:941-951): register the timestamp key, then store
the value at index `i` unless it is NaN. -/
def addPair (series i : ℕ) (acc : List (Int × List ℚ)) (p : SamplePair) :
    List (Int × List ℚ) :=
  let t := tsSec p.1
  let acc' := insertKey series t acc
  match p.2 with
  | none => acc'
  | some v => setVal t i v acc'

/-- The inner loop over one stream's samples. -/
def addStream (series i : ℕ) (acc : List (Int × List ℚ))
    (values : List SamplePair) : List (Int × List ℚ) :=
  values.foldl (addPair series i) acc

/-- The indexed outer loop `for i, stream := range m`. -/
def buildPairsAux (series : ℕ) :
    ℕ → List PromStream → List (Int × List ℚ) → List (Int × List ℚ)
  | _, [], acc => acc
  | i, s :: rest, acc =>
      buildPairsAux series (i + 1) rest (addStream series i acc s.values)

/-- The `pairs` map after both nested loops of the multi-series path,
as an association list in insertion order.  (The Go map iterates in
arbitrary order, but the subsequent joint `sort.Sort(vs)` over
pairwise-distinct timestamp keys makes the emitted columns independent of
the iteration order.) -/
def buildPairs (m : List PromStream) : List (Int × List ℚ) :=
  buildPairsAux m.length 0 m []

/-- `matrixToValues` (main.go:917-968).  For a single series the rows are
emitted directly; for several series the union columns are emitted sorted
by timestamp — `sort.Sort(values(vs))` swaps column `i` of every row in
lock-step (the `values.Swap` at main.go:980-984), and over distinct keys
its unique fixpoint is the key-sorted column list, which the model
produces directly. -/
def matrixToValues (m : List PromStream) : List (List ℚ) :=
  match m with
  | [] => []
  | [stream] =>
      [stream.values.map (fun p => ((tsSec p.1 : Int) : ℚ)),
       stream.values.map (fun p => p.2.getD 0)]
  | _ =>
      let ps := (buildPairs m).mergeSort (fun a b => decide (a.1 ≤ b.1))
      (ps.map (fun e => ((e.1 : Int) : ℚ))) ::
        (List.range m.length).map (fun i => ps.map (fun e => e.2.getD i 0))

/-- The multiset of second-truncated timestamps over all series (the union
keyed by the `pairs` map). -/
def allSecs (m : List PromStream) : List Int :=
  (m.map (fun s => s.values.map (fun p => tsSec p.1))).flatten

/-! ### Association-list lemmas -/

theorem lookup_mem {α β : Type} [BEq α] [LawfulBEq α]
    {l : List (α × β)} {k : α} {v : β}
    (h : l.lookup k = some v) : (k, v) ∈ l := by
  induction l with
  | nil => simp [List.lookup] at h
  | cons p rest ih =>
      obtain ⟨k', v'⟩ := p
      rw [List.lookup_cons] at h
      by_cases hk : k = k'
      · subst hk
        simp at h
        subst h
        exact List.mem_cons_self _ _
      · have hb : (k == k') = false := by simp [hk]
        rw [hb] at h
        exact List.mem_cons_of_mem _ (ih h)

theorem lookup_cons_self {α β : Type} [BEq α] [LawfulBEq α]
    {rest : List (α × β)} {k : α} {v : β} :
    List.lookup k ((k, v) :: rest) = some v := by
  simp [List.lookup_cons]

theorem lookup_cons_ne {α β : Type} [BEq α] [LawfulBEq α]
    {rest : List (α × β)} {k k' : α} {v : β}
    (h : k ≠ k') : List.lookup k ((k', v) :: rest) = List.lookup k rest := by
  rw [List.lookup_cons]
  have hb : (k == k') = false := by simp [h]
  rw [hb]

theorem upsert_lookup_self {α β : Type} [DecidableEq α] [BEq α] [LawfulBEq α]
    (l : List (α × β)) (k : α) (v : β) :
    (upsert k v l).lookup k = some v := by
  induction l with
  | nil => simp [upsert, lookup_cons_self]
  | cons p rest ih =>
      obtain ⟨k', v'⟩ := p
      by_cases hk : k' = k
      · subst hk
        simp [upsert, lookup_cons_self]
      · simp only [upsert, if_neg hk]
        rw [lookup_cons_ne (fun h => hk h.symm)]
        exact ih

theorem upsert_lookup_ne {α β : Type} [DecidableEq α] [BEq α] [LawfulBEq α]
    (l : List (α × β)) {k k' : α} (v : β)
    (h : k' ≠ k) : (upsert k v l).lookup k' = l.lookup k' := by
  induction l with
  | nil =>
      simp only [upsert]
      rw [lookup_cons_ne h]
  | cons p rest ih =>
      obtain ⟨k'', v''⟩ := p
      by_cases hk : k'' = k
      · subst hk
        have : upsert k'' v ((k'', v'') :: rest) = (k'', v) :: rest := by
          simp [upsert]
        rw [this, lookup_cons_ne h, lookup_cons_ne h]
      · simp only [upsert, if_neg hk]
        by_cases hk2 : k' = k''
        · subst hk2
          rw [lookup_cons_self, lookup_cons_self]
        · rw [lookup_cons_ne hk2, lookup_cons_ne hk2]
          exact ih

/-! ### Lemmas about the statuses pipeline of GetObjectiveStatus -/

theorem buildStatuses_foldl_lookup_not_mem (l : List (ℕ × FP))
    (acc : List (ℕ × Availability)) {F : ℕ} (h : F ∉ l.map Prod.fst) :
    (l.foldl
      (fun acc fv =>
        upsert fv.1 { percentage := FP.fin 1, total := fv.2, errors := FP.fin 0 } acc)
      acc).lookup F = acc.lookup F := by
  induction l generalizing acc with
  | nil => rfl
  | cons fv rest ih =>
      simp only [List.map_cons, List.mem_cons] at h
      push_neg at h
      rw [List.foldl_cons, ih _ h.2, upsert_lookup_ne _ _ h.1]

theorem buildStatuses_foldl_lookup (l : List (ℕ × FP))
    (acc : List (ℕ × Availability)) {F : ℕ} {T : FP}
    (hn : (l.map Prod.fst).Nodup) (h : l.lookup F = some T) :
    (l.foldl
      (fun acc fv =>
        upsert fv.1 { percentage := FP.fin 1, total := fv.2, errors := FP.fin 0 } acc)
      acc).lookup F =
      some { percentage := FP.fin 1, total := T, errors := FP.fin 0 } := by
  induction l generalizing acc with
  | nil => simp [List.lookup] at h
  | cons fv rest ih =>
      obtain ⟨k, v⟩ := fv
      simp only [List.map_cons, List.nodup_cons] at hn
      by_cases hk : F = k
      · subst hk
        rw [lookup_cons_self] at h
        injection h with h
        subst h
        rw [List.foldl_cons, buildStatuses_foldl_lookup_not_mem _ _ hn.1,
          upsert_lookup_self]
      · rw [lookup_cons_ne hk] at h
        rw [List.foldl_cons]
        exact ih _ hn.2 h

theorem buildStatuses_lookup {totals : FpVector} {F : ℕ} {T : FP}
    (hn : (totals.map Prod.fst).Nodup) (h : totals.lookup F = some T) :
    (buildStatuses totals).lookup F =
      some { percentage := FP.fin 1, total := T, errors := FP.fin 0 } :=
  buildStatuses_foldl_lookup totals [] hn h

theorem lookup_map_replace_self {sts : List (ℕ × Availability)} {k : ℕ}
    {a b : Availability} (h : sts.lookup k = some a) :
    (sts.map (fun p => if p.1 = k then (k, b) else p)).lookup k = some b := by
  induction sts with
  | nil => simp [List.lookup] at h
  | cons p rest ih =>
      obtain ⟨k', v'⟩ := p
      by_cases hk : k' = k
      · subst hk
        have hmap : (((k', v') :: rest).map (fun p => if p.1 = k' then (k', b) else p)) =
            (k', b) :: rest.map (fun p => if p.1 = k' then (k', b) else p) := by
          simp
        rw [hmap, lookup_cons_self]
      · rw [lookup_cons_ne (fun hh => hk hh.symm)] at h
        have hmap : (((k', v') :: rest).map (fun p => if p.1 = k then (k, b) else p)) =
            (k', v') :: rest.map (fun p => if p.1 = k then (k, b) else p) := by
          simp [hk]
        rw [hmap, lookup_cons_ne (fun hh => hk hh.symm)]
        exact ih h

theorem lookup_map_replace_ne {sts : List (ℕ × Availability)} {k F : ℕ}
    {b : Availability} (h : F ≠ k) :
    (sts.map (fun p => if p.1 = k then (k, b) else p)).lookup F = sts.lookup F := by
  induction sts with
  | nil => rfl
  | cons p rest ih =>
      obtain ⟨k', v'⟩ := p
      by_cases hk : k' = k
      · subst hk
        have hmap : (((k', v') :: rest).map (fun p => if p.1 = k' then (k', b) else p)) =
            (k', b) :: rest.map (fun p => if p.1 = k' then (k', b) else p) := by
          simp
        rw [hmap, lookup_cons_ne h, lookup_cons_ne h]
        exact ih
      · have hmap : (((k', v') :: rest).map (fun p => if p.1 = k then (k, b) else p)) =
            (k', v') :: rest.map (fun p => if p.1 = k then (k, b) else p) := by
          simp [hk]
        rw [hmap]
        by_cases hk2 : F = k'
        · subst hk2
          rw [lookup_cons_self, lookup_cons_self]
        · rw [lookup_cons_ne hk2, lookup_cons_ne hk2]
          exact ih

theorem applyErrors_lookup_not_mem {errs : FpVector}
    {sts out : List (ℕ × Availability)} {F : ℕ}
    (h : F ∉ errs.map Prod.fst) (hout : applyErrors sts errs = some out) :
    out.lookup F = sts.lookup F := by
  induction errs generalizing sts with
  | nil =>
      simp only [applyErrors] at hout
      injection hout with hout
      subst hout
      rfl
  | cons fv rest ih =>
      simp only [List.map_cons, List.mem_cons] at h
      push_neg at h
      simp only [applyErrors] at hout
      cases ha : sts.lookup fv.1 with
      | none => rw [ha] at hout; exact absurd hout (by simp)
      | some a =>
          rw [ha] at hout
          rw [ih h.2 hout, lookup_map_replace_ne h.1]

theorem applyErrors_lookup {errs : FpVector}
    {sts out : List (ℕ × Availability)} {F : ℕ} {E : FP} {a : Availability}
    (hn : (errs.map Prod.fst).Nodup) (hE : errs.lookup F = some E)
    (hout : applyErrors sts errs = some out) (ha : sts.lookup F = some a) :
    out.lookup F = some (updAvailability a E) := by
  induction errs generalizing sts a with
  | nil => simp [List.lookup] at hE
  | cons fv rest ih =>
      obtain ⟨k, e⟩ := fv
      simp only [List.map_cons, List.nodup_cons] at hn
      simp only [applyErrors] at hout
      by_cases hk : F = k
      · subst hk
        rw [lookup_cons_self] at hE
        injection hE with hE
        subst hE
        rw [ha] at hout
        rw [applyErrors_lookup_not_mem hn.1 hout, lookup_map_replace_self ha]
      · rw [lookup_cons_ne hk] at hE
        cases ha' : sts.lookup k with
        | none => rw [ha'] at hout; exact absurd hout (by simp)
        | some a' =>
            rw [ha'] at hout
            exact ih hn.2 hE hout (by rw [lookup_map_replace_ne hk]; exact ha)

theorem mem_finalizeStatuses {target : ℚ} {sts : List (ℕ × Availability)}
    {F : ℕ} {a : Availability} (h : (F, a) ∈ sts)
    (hz : a.total.isZero = false) :
    { fingerprint := F
      availability :=
        { a with percentage := if a.percentage.isNaN then FP.fin 1 else a.percentage }
      budget :=
        { total := FP.sub (FP.fin 1) (FP.fin target)
          remaining :=
            if (FP.div (FP.sub (FP.sub (FP.fin 1) (FP.fin target))
                  (FP.div a.errors a.total)) (FP.sub (FP.fin 1) (FP.fin target))).isNaN
            then FP.fin 1
            else FP.div (FP.sub (FP.sub (FP.fin 1) (FP.fin target))
                  (FP.div a.errors a.total)) (FP.sub (FP.fin 1) (FP.fin target))
          max := FP.mul (FP.sub (FP.fin 1) (FP.fin target)) a.total } }
      ∈ finalizeStatuses target sts := by
  refine List.mem_filterMap.mpr ⟨(F, a), h, ?_⟩
  simp [hz]

theorem finalizeStatuses_mem_props {target : ℚ} {sts : List (ℕ × Availability)}
    {s : ObjectiveStatus} (h : s ∈ finalizeStatuses target sts) :
    s.availability.total.isZero = false ∧
    s.availability.percentage.isNaN = false ∧
    s.budget.remaining.isNaN = false := by
  obtain ⟨p, _, hp⟩ := List.mem_filterMap.mp h
  simp only [finalizeStatuses] at hp
  by_cases hz : p.2.total.isZero
  · rw [if_pos hz] at hp
    exact absurd hp (by simp)
  · rw [if_neg hz] at hp
    injection hp with hp
    subst hp
    refine ⟨by simpa using hz, ?_, ?_⟩
    · by_cases hn : p.2.percentage.isNaN
      · rw [if_pos hn]
        rfl
      · rw [if_neg hn]
        simpa using hn
    · by_cases hn : (FP.div (FP.sub (FP.sub (FP.fin 1) (FP.fin target))
          (FP.div p.2.errors p.2.total)) (FP.sub (FP.fin 1) (FP.fin target))).isNaN
      · rw [if_pos hn]
        rfl
      · rw [if_neg hn]
        simpa using hn

/-- C1: for every `ObjectiveStatus` emitted by `GetObjectiveStatus` from a
totals vector and an errors vector sharing fingerprint `F` with total
`T > 0` and errors `E`: `Availability.Percentage = 1 - E/T`,
`Budget.Total = 1 - target`, `Budget.Remaining = (Budget.Total - E/T) /
Budget.Total`, `Budget.Max = Budget.Total * T`; every entry whose
`Availability.Total` is zero is excluded from the output; and no emitted
`Percentage` or `Budget.Remaining` is NaN. -/
theorem getObjectiveStatus_fields
    (target T E : ℚ) (totals errs : FpVector) (F : ℕ) (out : List ObjectiveStatus)
    (hnt : (totals.map Prod.fst).Nodup) (hne : (errs.map Prod.fst).Nodup)
    (hT : totals.lookup F = some (FP.fin T)) (hE : errs.lookup F = some (FP.fin E))
    (hT0 : 0 < T) (htar : target ≠ 1)
    (hout : getObjectiveStatus target totals errs = some out) :
    (∃ s ∈ out, s.fingerprint = F ∧
      s.availability.total = FP.fin T ∧
      s.availability.errors = FP.fin E ∧
      s.availability.percentage = FP.fin (1 - E / T) ∧
      s.budget.total = FP.fin (1 - target) ∧
      s.budget.remaining = FP.fin ((1 - target - E / T) / (1 - target)) ∧
      s.budget.max = FP.fin ((1 - target) * T)) ∧
    (∀ s ∈ out, s.availability.total.isZero = false) ∧
    (∀ s ∈ out, s.availability.percentage.isNaN = false ∧
      s.budget.remaining.isNaN = false) := by
  obtain ⟨sts, hsts, hfin⟩ :
      ∃ sts, applyErrors (buildStatuses totals) errs = some sts ∧
        finalizeStatuses target sts = out := by
    cases ha : applyErrors (buildStatuses totals) errs with
    | none =>
        rw [getObjectiveStatus, ha] at hout
        exact absurd hout (by simp)
    | some s =>
        rw [getObjectiveStatus, ha] at hout
        injection hout with hout
        exact ⟨s, rfl, hout⟩
  subst hfin
  have hb := buildStatuses_lookup hnt hT
  have ha := applyErrors_lookup hne hE hsts hb
  have hT' : T ≠ 0 := ne_of_gt hT0
  have h1t : (1 : ℚ) - target ≠ 0 := sub_ne_zero.mpr (fun h => htar h.symm)
  have hupd :
      updAvailability
        { percentage := FP.fin 1, total := FP.fin T, errors := FP.fin 0 } (FP.fin E)
      = { percentage := FP.fin (1 - E / T), total := FP.fin T, errors := FP.fin E } := by
    simp [updAvailability, FP.div, FP.sub, hT']
  rw [hupd] at ha
  have hmem := lookup_mem ha
  have hz :
      ({ percentage := FP.fin (1 - E / T), total := FP.fin T,
         errors := FP.fin E } : Availability).total.isZero = false := by
    simp [FP.isZero, hT']
  have hstat := @mem_finalizeStatuses target _ _ _ hmem hz
  have hclean :
      ({ fingerprint := F
         availability :=
           { percentage := FP.fin (1 - E / T), total := FP.fin T,
             errors := FP.fin E }
         budget :=
           { total := FP.fin (1 - target)
             remaining := FP.fin ((1 - target - E / T) / (1 - target))
             max := FP.fin ((1 - target) * T) } } : ObjectiveStatus)
      ∈ finalizeStatuses target sts := by
    simpa [FP.div, FP.sub, FP.mul, FP.isNaN, hT', h1t] using hstat
  exact ⟨⟨_, hclean, rfl, rfl, rfl, rfl, rfl, rfl, rfl⟩,
    fun s hs => (finalizeStatuses_mem_props hs).1,
    fun s hs => ⟨(finalizeStatuses_mem_props hs).2.1,
      (finalizeStatuses_mem_props hs).2.2⟩⟩

/-- Witness for C1 at the claim's example: target 0.99, total 10000 and
errors 50 at fingerprint 7 give `Percentage = 0.995`, `Budget.Total = 0.01`,
`Budget.Remaining = 0.5`, `Budget.Max = 100`. -/
theorem getObjectiveStatus_fields_witness :
    ((1 : ℚ) - 50 / 10000 = 199 / 200 ∧
     (1 : ℚ) - 99 / 100 = 1 / 100 ∧
     ((1 : ℚ) - 99 / 100 - 50 / 10000) / (1 - 99 / 100) = 1 / 2 ∧
     ((1 : ℚ) - 99 / 100) * 10000 = 100) ∧
    ((∃ s ∈ [({ fingerprint := 7
                availability :=
                  { percentage := FP.fin (199 / 200), total := FP.fin 10000,
                    errors := FP.fin 50 }
                budget :=
                  { total := FP.fin (1 / 100), remaining := FP.fin (1 / 2),
                    max := FP.fin 100 } } : ObjectiveStatus)],
        s.fingerprint = 7 ∧
        s.availability.total = FP.fin 10000 ∧
        s.availability.errors = FP.fin 50 ∧
        s.availability.percentage = FP.fin (1 - 50 / 10000) ∧
        s.budget.total = FP.fin (1 - 99 / 100) ∧
        s.budget.remaining = FP.fin ((1 - 99 / 100 - 50 / 10000) / (1 - 99 / 100)) ∧
        s.budget.max = FP.fin ((1 - 99 / 100) * 10000)) ∧
     (∀ s ∈ [({ fingerprint := 7
                availability :=
                  { percentage := FP.fin (199 / 200), total := FP.fin 10000,
                    errors := FP.fin 50 }
                budget :=
                  { total := FP.fin (1 / 100), remaining := FP.fin (1 / 2),
                    max := FP.fin 100 } } : ObjectiveStatus)],
        s.availability.total.isZero = false) ∧
     (∀ s ∈ [({ fingerprint := 7
                availability :=
                  { percentage := FP.fin (199 / 200), total := FP.fin 10000,
                    errors := FP.fin 50 }
                budget :=
                  { total := FP.fin (1 / 100), remaining := FP.fin (1 / 2),
                    max := FP.fin 100 } } : ObjectiveStatus)],
        s.availability.percentage.isNaN = false ∧
        s.budget.remaining.isNaN = false)) :=
  ⟨⟨by norm_num, by norm_num, by norm_num, by norm_num⟩,
    getObjectiveStatus_fields (99 / 100) 10000 50
      [(7, FP.fin 10000)] [(7, FP.fin 50)] 7 _
      (by decide) (by decide) (by decide) (by decide)
      (by norm_num) (by norm_num)
      (by
        simp [getObjectiveStatus, applyErrors, buildStatuses, upsert,
          finalizeStatuses, updAvailability, FP.div, FP.sub, FP.mul,
          FP.isNaN, FP.isZero, List.lookup]
        norm_num)⟩

/-- C2 (divergence witness): an errors-vector series whose fingerprint has
no entry in the statuses map is not silently dropped — the Go code
dereferences the nil pointer returned by `statuses[fingerprint]`, a runtime
panic (modelled as `none`), so the whole call fails. -/
theorem getObjectiveStatus_unmatched_errors_panic :
    getObjectiveStatus (99 / 100) [(3, FP.fin 100)]
      [(3, FP.fin 1), (7, FP.fin 1)] = none := by
  decide

/-- C5 (divergence witness): the Latency branch of the grouping merge in
`GetObjectiveErrorBudget` does not use the latency indicator's own grouping
list.  With `Ratio` absent it dereferences `Indicator.Ratio.Grouping`
through a nil pointer (first conjunct); with both indicators populated it
leaves the latency grouping list untouched (matcher name `code` is not
removed from it) and instead rewrites the ratio grouping list (second
conjunct). -/
theorem mergeGroupingErrorBudget_latency_uses_ratio :
    mergeGroupingErrorBudget
      { ratio := none
        latency := some { success := ⟨[]⟩, total := ⟨[]⟩, grouping := ["code"] } }
      [{ name := "code", value := "500" }] = none ∧
    mergeGroupingErrorBudget
      { ratio := some { errors := ⟨[]⟩, total := ⟨[]⟩, grouping := ["instance"] }
        latency := some { success := ⟨[]⟩, total := ⟨[]⟩, grouping := ["code"] } }
      [{ name := "code", value := "500" }] =
      some
        { ratio := some
            { errors := ⟨[⟨"code", "500"⟩]⟩, total := ⟨[⟨"code", "500"⟩]⟩,
              grouping := ["instance"] }
          latency := some
            { success := ⟨[⟨"code", "500"⟩]⟩, total := ⟨[⟨"code", "500"⟩]⟩,
              grouping := ["code"] } } := by
  constructor
  · rfl
  · decide

/-- C10: in `GetObjectiveErrorBudget`, `GetREDRequests` and `GetREDErrors`,
the caller's `[start, end]` is used only when both timestamps are non-zero;
otherwise the effective range is the last hour `[now - 1h, now]`. -/
theorem rangeDefaults (now startTs endTs : Int) :
    (startTs ≠ 0 ∧ endTs ≠ 0 →
      getObjectiveErrorBudgetRange now startTs endTs =
        (startTs, endTs, queryStep startTs endTs) ∧
      getREDRequestsParams now startTs endTs =
        { start := startTs, endTime := endTs, step := queryStep startTs endTs,
          timeRange := timeRangeFor startTs endTs } ∧
      getREDErrorsParams now startTs endTs =
        { start := startTs, endTime := endTs, step := queryStep startTs endTs,
          timeRange := timeRangeFor startTs endTs }) ∧
    (startTs = 0 ∨ endTs = 0 →
      getObjectiveErrorBudgetRange now startTs endTs =
        (now - 3600, now, queryStep (now - 3600) now) ∧
      getREDRequestsParams now startTs endTs =
        { start := now - 3600, endTime := now, step := queryStep (now - 3600) now,
          timeRange := timeRangeFor (now - 3600) now } ∧
      getREDErrorsParams now startTs endTs =
        { start := now - 3600, endTime := now, step := queryStep (now - 3600) now,
          timeRange := timeRangeFor (now - 3600) now }) := by
  constructor
  · intro h
    simp [getObjectiveErrorBudgetRange, getREDRequestsParams, getREDErrorsParams,
      effectiveRange, h]
  · intro h
    have h' : ¬(startTs ≠ 0 ∧ endTs ≠ 0) := by
      rcases h with h | h <;> simp [h]
    simp [getObjectiveErrorBudgetRange, getREDRequestsParams, getREDErrorsParams,
      effectiveRange, h']

/-- Witness for C10: explicit timestamps (5, 10) are used as given; a zero
start timestamp falls back to the last hour. -/
theorem rangeDefaults_witness :
    (getObjectiveErrorBudgetRange 10000 5 10 =
        (5, 10, queryStep 5 10) ∧
      getREDRequestsParams 10000 5 10 =
        { start := 5, endTime := 10, step := queryStep 5 10,
          timeRange := timeRangeFor 5 10 } ∧
      getREDErrorsParams 10000 5 10 =
        { start := 5, endTime := 10, step := queryStep 5 10,
          timeRange := timeRangeFor 5 10 }) ∧
    (getObjectiveErrorBudgetRange 10000 0 10 =
        (10000 - 3600, 10000, queryStep (10000 - 3600) 10000) ∧
      getREDRequestsParams 10000 0 10 =
        { start := 10000 - 3600, endTime := 10000,
          step := queryStep (10000 - 3600) 10000,
          timeRange := timeRangeFor (10000 - 3600) 10000 } ∧
      getREDErrorsParams 10000 0 10 =
        { start := 10000 - 3600, endTime := 10000,
          step := queryStep (10000 - 3600) 10000,
          timeRange := timeRangeFor (10000 - 3600) 10000 }) :=
  ⟨(rangeDefaults 10000 5 10).1 (by decide),
   (rangeDefaults 10000 0 10).2 (Or.inl rfl)⟩

/-- C7: `GetREDErrors` computes the same range parameters as
`GetREDRequests`; the backend step is the span divided by 1000 (here stated
in nanoseconds: span-in-seconds times 10^6); the `timeRange` handed to
query generation follows the 5m/15m/30m/1h/3h ladder over the effective
span. -/
theorem redParams_step_timeRange (now startTs endTs : Int) :
    getREDErrorsParams now startTs endTs = getREDRequestsParams now startTs endTs ∧
    (getREDRequestsParams now startTs endTs).step =
      ((getREDRequestsParams now startTs endTs).endTime -
        (getREDRequestsParams now startTs endTs).start) * 1000000 ∧
    (getREDRequestsParams now startTs endTs).timeRange =
      timeRangeFor (getREDRequestsParams now startTs endTs).start
        (getREDRequestsParams now startTs endTs).endTime ∧
    (∀ a b : Int,
      (b - a < 12 * 3600 → timeRangeFor a b = 5 * 60 * 1000000000) ∧
      (12 * 3600 ≤ b - a ∧ b - a < 24 * 3600 →
        timeRangeFor a b = 15 * 60 * 1000000000) ∧
      (24 * 3600 ≤ b - a ∧ b - a < 7 * 24 * 3600 →
        timeRangeFor a b = 30 * 60 * 1000000000) ∧
      (7 * 24 * 3600 ≤ b - a ∧ b - a < 28 * 24 * 3600 →
        timeRangeFor a b = 3600 * 1000000000) ∧
      (28 * 24 * 3600 ≤ b - a → timeRangeFor a b = 3 * 3600 * 1000000000)) := by
  refine ⟨rfl, ?_, rfl, ?_⟩
  · have hstep : ∀ a b : Int, queryStep a b = (b - a) * 1000000 := by
      intro a b
      have : (b - a) * 1000000000 = ((b - a) * 1000000) * 1000 := by ring
      rw [queryStep, this, Int.mul_tdiv_cancel _ (by norm_num)]
    cases h : effectiveRange now startTs endTs with
    | mk a b => simp [getREDRequestsParams, h, hstep]
  · intro a b
    refine ⟨?_, ?_, ?_, ?_, ?_⟩ <;>
      · intro h
        simp only [timeRangeFor]
        split_ifs <;> omega

/-- Witness for C7 at the claim's examples: a 2-hour span yields
`timeRange = 5m`, a 30-day span yields `timeRange = 3h`, and the step is
the span divided by 1000. -/
theorem redParams_step_timeRange_witness :
    ((7300 : Int) - 100 < 12 * 3600 ∧ timeRangeFor 100 7300 = 5 * 60 * 1000000000) ∧
    (28 * 24 * 3600 ≤ (2592100 : Int) - 100 ∧
      timeRangeFor 100 2592100 = 3 * 3600 * 1000000000) ∧
    (getREDRequestsParams 10000 100 7300).step =
      ((getREDRequestsParams 10000 100 7300).endTime -
        (getREDRequestsParams 10000 100 7300).start) * 1000000 :=
  ⟨⟨by decide, ((redParams_step_timeRange 10000 100 7300).2.2.2 100 7300).1 (by decide)⟩,
   ⟨by decide, ((redParams_step_timeRange 0 100 2592100).2.2.2 100 2592100).2.2.2.2 (by decide)⟩,
   (redParams_step_timeRange 10000 100 7300).2.1⟩

/-- C8: on a cache miss, `promCache.Query` stores exactly the non-empty
warning-free vectors (cost 10, TTL 5 minutes) and `promCache.QueryRange`
exactly the non-empty warning-free matrices (cost 100, TTL 10 minutes);
any result carrying warnings is returned to the caller but never written
to the cache. -/
theorem promCache_admission (cache : Cache) (hash : ℕ) (b : BackendResult)
    (hmiss : cacheGet cache hash = none) :
    (∀ l, b.value = .ok (.vector l) → l ≠ [] → b.warnings = [] →
      (promCacheQuery cache hash b).cache =
        cache ++ [{ key := hash, value := .vector l, cost := 10,
                    ttl := 300000000000 }]) ∧
    ((promCacheQuery cache hash b).cache ≠ cache →
      ∃ l, b.value = .ok (.vector l) ∧ l ≠ [] ∧ b.warnings = []) ∧
    (∀ v, b.value = .ok v → b.warnings ≠ [] →
      (promCacheQuery cache hash b).cache = cache ∧
      (promCacheQuery cache hash b).value = some v ∧
      (promCacheQuery cache hash b).warnings = b.warnings) ∧
    (∀ l, b.value = .ok (.matrix l) → l ≠ [] → b.warnings = [] →
      (promCacheQueryRange cache hash b).cache =
        cache ++ [{ key := hash, value := .matrix l, cost := 100,
                    ttl := 600000000000 }]) ∧
    ((promCacheQueryRange cache hash b).cache ≠ cache →
      ∃ l, b.value = .ok (.matrix l) ∧ l ≠ [] ∧ b.warnings = []) ∧
    (∀ v, b.value = .ok v → b.warnings ≠ [] →
      (promCacheQueryRange cache hash b).cache = cache ∧
      (promCacheQueryRange cache hash b).value = some v ∧
      (promCacheQueryRange cache hash b).warnings = b.warnings) := by
  refine ⟨?_, ?_, ?_, ?_, ?_, ?_⟩
  · intro l hv hl hw
    have hlen : 0 < l.length := List.length_pos.mpr hl
    simp [promCacheQuery, hmiss, hv, hw, hlen]
  · intro hne
    rcases hb : b.value with e | v
    · simp [promCacheQuery, hmiss, hb] at hne
    · cases v with
      | vector l =>
          simp [promCacheQuery, hmiss, hb] at hne
          exact ⟨l, rfl, List.length_pos.mp hne.1, hne.2⟩
      | matrix l => simp [promCacheQuery, hmiss, hb] at hne
      | scalar q => simp [promCacheQuery, hmiss, hb] at hne
  · intro v hv hw
    have hwl : b.warnings.length ≠ 0 := fun h => hw (List.length_eq_zero.mp h)
    cases v with
    | vector l => simp [promCacheQuery, hmiss, hv, hwl]
    | matrix l => simp [promCacheQuery, hmiss, hv]
    | scalar q => simp [promCacheQuery, hmiss, hv]
  · intro l hv hl hw
    have hlen : 0 < l.length := List.length_pos.mpr hl
    simp [promCacheQueryRange, hmiss, hv, hw, hlen]
  · intro hne
    rcases hb : b.value with e | v
    · simp [promCacheQueryRange, hmiss, hb] at hne
    · cases v with
      | matrix l =>
          simp [promCacheQueryRange, hmiss, hb] at hne
          exact ⟨l, rfl, List.length_pos.mp hne.1, hne.2⟩
      | vector l => simp [promCacheQueryRange, hmiss, hb] at hne
      | scalar q => simp [promCacheQueryRange, hmiss, hb] at hne
  · intro v hv hw
    have hwl : b.warnings.length ≠ 0 := fun h => hw (List.length_eq_zero.mp h)
    cases v with
    | matrix l => simp [promCacheQueryRange, hmiss, hv, hwl]
    | vector l => simp [promCacheQueryRange, hmiss, hv]
    | scalar q => simp [promCacheQueryRange, hmiss, hv]

/-- Witness for C8: on an empty cache, a one-sample vector with no warnings
is stored with cost 10 and TTL 5 minutes, while the same vector accompanied
by a warning is returned but not stored. -/
theorem promCache_admission_witness :
    (promCacheQuery [] 5
        { value := .ok (.vector [{ metric := [], value := FP.fin 1 }]),
          warnings := [] }).cache =
      [] ++ [{ key := 5, value := .vector [{ metric := [], value := FP.fin 1 }],
               cost := 10, ttl := 300000000000 }] ∧
    (promCacheQuery [] 5
        { value := .ok (.vector [{ metric := [], value := FP.fin 1 }]),
          warnings := ["downsampled"] }).cache = [] ∧
    (promCacheQuery [] 5
        { value := .ok (.vector [{ metric := [], value := FP.fin 1 }]),
          warnings := ["downsampled"] }).value =
      some (.vector [{ metric := [], value := FP.fin 1 }]) ∧
    (promCacheQueryRange [] 5
        { value := .ok (.matrix [{ metric := [], values := [(0, some 1)] }]),
          warnings := [] }).cache =
      [] ++ [{ key := 5, value := .matrix [{ metric := [], values := [(0, some 1)] }],
               cost := 100, ttl := 600000000000 }] :=
  ⟨(promCache_admission [] 5
      { value := .ok (.vector [{ metric := [], value := FP.fin 1 }]),
        warnings := [] } rfl).1 _ rfl (by simp) rfl,
   ((promCache_admission [] 5
      { value := .ok (.vector [{ metric := [], value := FP.fin 1 }]),
        warnings := ["downsampled"] } rfl).2.2.1 _ rfl (by simp)).1,
   ((promCache_admission [] 5
      { value := .ok (.vector [{ metric := [], value := FP.fin 1 }]),
        warnings := ["downsampled"] } rfl).2.2.1 _ rfl (by simp)).2.1,
   (promCache_admission [] 5
      { value := .ok (.matrix [{ metric := [], values := [(0, some 1)] }]),
        warnings := [] } rfl).2.2.2.1 _ rfl (by simp) rfl⟩

/-- C9 counterexample: a Matrix cached under the instant-query key is NOT
treated as a cache miss — `promCache.Query` returns the type-incompatible
cached Matrix to its caller and never issues the backend query. -/
theorem promCacheQuery_collision_not_miss :
    (promCacheQuery
        [{ key := 7, value := PromValue.matrix [], cost := 100,
           ttl := 600000000000 }] 7
        { value := .ok (.vector [{ metric := [], value := FP.fin 1 }]),
          warnings := [] }).usedBackend = false ∧
    (promCacheQuery
        [{ key := 7, value := PromValue.matrix [], cost := 100,
           ttl := 600000000000 }] 7
        { value := .ok (.vector [{ metric := [], value := FP.fin 1 }]),
          warnings := [] }).value = some (PromValue.matrix []) :=
  ⟨rfl, rfl⟩

/-- C9 (amended): on any cache hit, `promCache.Query` and
`promCache.QueryRange` return the stored value unconditionally — no type
check, no backend call, cache unchanged — whatever shape the stored value
has. -/
theorem promCache_hit_returns_cached (cache : Cache) (hash : ℕ)
    (b : BackendResult) (v : PromValue) (h : cacheGet cache hash = some v) :
    promCacheQuery cache hash b =
      { value := some v, warnings := [], usedBackend := false, cache := cache } ∧
    promCacheQueryRange cache hash b =
      { value := some v, warnings := [], usedBackend := false, cache := cache } := by
  constructor
  · simp [promCacheQuery, h]
  · simp [promCacheQueryRange, h]

/-- Witness for C9's amended claim: with a Matrix stored under key 7, the
instant-query path returns it as-is. -/
theorem promCache_hit_returns_cached_witness :
    promCacheQuery
      [{ key := 7, value := PromValue.matrix [], cost := 100,
         ttl := 600000000000 }] 7
      { value := .ok (.vector []), warnings := [] } =
      { value := some (PromValue.matrix []), warnings := [], usedBackend := false,
        cache := [{ key := 7, value := PromValue.matrix [], cost := 100,
                    ttl := 600000000000 }] } ∧
    promCacheQueryRange
      [{ key := 7, value := PromValue.matrix [], cost := 100,
         ttl := 600000000000 }] 7
      { value := .ok (.vector []), warnings := [] } =
      { value := some (PromValue.matrix []), warnings := [], usedBackend := false,
        cache := [{ key := 7, value := PromValue.matrix [], cost := 100,
                    ttl := 600000000000 }] } :=
  promCache_hit_returns_cached _ 7 _ (PromValue.matrix []) rfl

theorem formGet_formSet_self (q : Form) (k : String) (v : FVal) :
    formGet (formSet q k v) k = v := by
  simp [formGet, formSet, upsert_lookup_self]

theorem formGet_formSet_ne (q : Form) {k k' : String} (v : FVal)
    (h : k' ≠ k) : formGet (formSet q k v) k' = formGet q k' := by
  simp [formGet, formSet, upsert_lookup_ne _ _ h]

/-- C6: `thanosClient.Do` forces `partial_response=false` on every
forwarded request; on range queries it parses `start`/`end` and sets
`max_source_resolution` to `1h` for spans of at least 28 days and to `5m`
for spans in `[7d, 28d)`, leaving it untouched for shorter spans; an
unparseable body or a non-numeric `start`/`end` fails the request instead
of forwarding it. -/
theorem thanosDo_spec (path : String) (body : Except Unit Form) :
    (∀ q', thanosDo path body = .ok q' →
      formGet q' "partial_response" = FVal.raw "false") ∧
    (∀ e, body = .error e → thanosDo path body = .error e) ∧
    (∀ q, body = .ok q → goHasSuffix path "/api/v1/query_range" = true →
      ((parseFloat (formGet q "start") = none ∨
          parseFloat (formGet q "end") = none) →
        thanosDo path body = .error ()) ∧
      (∀ s e, parseFloat (formGet q "start") = some s →
        parseFloat (formGet q "end") = some e →
        (28 * 24 * 60 * 60 ≤ e - s →
          thanosDo path body =
            .ok (formSet (formSet q "partial_response" (FVal.raw "false"))
              "max_source_resolution" (FVal.raw "1h"))) ∧
        (7 * 24 * 60 * 60 ≤ e - s ∧ e - s < 28 * 24 * 60 * 60 →
          thanosDo path body =
            .ok (formSet (formSet q "partial_response" (FVal.raw "false"))
              "max_source_resolution" (FVal.raw "5m"))) ∧
        (e - s < 7 * 24 * 60 * 60 →
          thanosDo path body =
            .ok (formSet q "partial_response" (FVal.raw "false"))))) := by
  have hps : ∀ q : Form, ∀ k : String, k ≠ "partial_response" →
      formGet (formSet q "partial_response" (FVal.raw "false")) k = formGet q k :=
    fun q k hk => formGet_formSet_ne q _ hk
  refine ⟨?_, ?_, ?_⟩
  · intro q' hq'
    cases body with
    | error e => simp [thanosDo] at hq'
    | ok q =>
        simp only [thanosDo] at hq'
        by_cases hr : goHasSuffix path "/api/v1/query_range" = true
        · rw [if_pos hr] at hq'
          cases hs : parseFloat (formGet (formSet q "partial_response" (FVal.raw "false")) "start") with
          | none => simp [hs] at hq'
          | some s =>
              simp only [hs] at hq'
              cases he : parseFloat (formGet (formSet q "partial_response" (FVal.raw "false")) "end") with
              | none => simp [he] at hq'
              | some e =>
                  simp only [he] at hq'
                  by_cases h28 : e - s ≥ 28 * 24 * 60 * 60
                  · rw [if_pos h28] at hq'
                    injection hq' with hq'
                    subst hq'
                    rw [formGet_formSet_ne _ _ (by decide), formGet_formSet_self]
                  · rw [if_neg h28] at hq'
                    by_cases h7 : e - s ≥ 7 * 24 * 60 * 60
                    · rw [if_pos h7] at hq'
                      injection hq' with hq'
                      subst hq'
                      rw [formGet_formSet_ne _ _ (by decide), formGet_formSet_self]
                    · rw [if_neg h7] at hq'
                      injection hq' with hq'
                      subst hq'
                      rw [formGet_formSet_self]
        · rw [if_neg hr] at hq'
          injection hq' with hq'
          subst hq'
          rw [formGet_formSet_self]
  · intro e he
    subst he
    rfl
  · intro q hq hr
    subst hq
    have hstart : formGet (formSet q "partial_response" (FVal.raw "false")) "start" =
        formGet q "start" := hps q "start" (by decide)
    have hend : formGet (formSet q "partial_response" (FVal.raw "false")) "end" =
        formGet q "end" := hps q "end" (by decide)
    constructor
    · intro hbad
      simp only [thanosDo, if_pos hr, hstart, hend]
      rcases hbad with hbad | hbad
      · rw [hbad]
      · cases hs : parseFloat (formGet q "start") with
        | none => rfl
        | some s => rw [hbad]
    · intro s e hs he
      refine ⟨?_, ?_, ?_⟩
      · intro h28
        simp only [thanosDo, if_pos hr, hstart, hend, hs, he]
        rw [if_pos h28]
      · intro h7
        simp only [thanosDo, if_pos hr, hstart, hend, hs, he]
        rw [if_neg (by simp only [ge_iff_le, not_le]; linarith [h7.2]),
          if_pos h7.1]
      · intro hlt
        simp only [thanosDo, if_pos hr, hstart, hend, hs, he]
        rw [if_neg (by simp only [ge_iff_le, not_le]; linarith),
          if_neg (by simp only [ge_iff_le, not_le]; linarith)]

/-- Witness for C6: a 30-day range query gets `max_source_resolution=1h`
and keeps `partial_response=false`; a range query with a non-numeric
`start` fails; a 1-day range query leaves `max_source_resolution` unset. -/
theorem thanosDo_spec_witness :
    thanosDo "/api/v1/query_range"
        (.ok [("start", FVal.num 0), ("end", FVal.num 2592000)]) =
      .ok (formSet (formSet [("start", FVal.num 0), ("end", FVal.num 2592000)]
        "partial_response" (FVal.raw "false"))
        "max_source_resolution" (FVal.raw "1h")) ∧
    thanosDo "/api/v1/query_range"
        (.ok [("start", FVal.raw "oops"), ("end", FVal.num 2592000)]) =
      .error () ∧
    thanosDo "/api/v1/query_range"
        (.ok [("start", FVal.num 0), ("end", FVal.num 86400)]) =
      .ok (formSet [("start", FVal.num 0), ("end", FVal.num 86400)]
        "partial_response" (FVal.raw "false")) ∧
    formGet (formSet [("start", FVal.num 0), ("end", FVal.num 86400)]
      "partial_response" (FVal.raw "false")) "partial_response" =
      FVal.raw "false" :=
  ⟨(((thanosDo_spec "/api/v1/query_range"
        (.ok [("start", FVal.num 0), ("end", FVal.num 2592000)])).2.2 _ rfl
        (by decide)).2 0 2592000 rfl rfl).1 (by norm_num),
   ((thanosDo_spec "/api/v1/query_range"
        (.ok [("start", FVal.raw "oops"), ("end", FVal.num 2592000)])).2.2 _ rfl
        (by decide)).1 (Or.inl rfl),
   (((thanosDo_spec "/api/v1/query_range"
        (.ok [("start", FVal.num 0), ("end", FVal.num 86400)])).2.2 _ rfl
        (by decide)).2 0 86400 rfl rfl).2.2 (by norm_num),
   (thanosDo_spec "/api/v1/query_range"
        (.ok [("start", FVal.num 0), ("end", FVal.num 86400)])).1 _
     ((((thanosDo_spec "/api/v1/query_range"
          (.ok [("start", FVal.num 0), ("end", FVal.num 86400)])).2.2 _ rfl
          (by decide)).2 0 86400 rfl rfl).2.2 (by norm_num))⟩

/-- C4: the per-rule result of `GetMultiBurnrateAlerts` joins all three
branch evaluations; each branch's value is a function of its own query
result alone, a failed or unexpectedly-shaped branch keeps its default
(`-1` current, `inactive` state) without affecting the others; window
fields are the alert windows in milliseconds; and the state is pending or
firing exactly when the ALERTS query returned one series with value 1 and
an `alertstate` label of `pending` or `firing`. -/
theorem multiBurnrateAlert_spec (ba : BaseAlert)
    (sRes lRes aRes : Except Unit PromValue) :
    ((multiBurnrateAlert ba sRes lRes aRes).short.current = burnrateCurrent sRes ∧
     (multiBurnrateAlert ba sRes lRes aRes).long.current = burnrateCurrent lRes ∧
     (multiBurnrateAlert ba sRes lRes aRes).state = alertState aRes) ∧
    ((multiBurnrateAlert ba sRes lRes aRes).short.window = ba.short.tdiv 1000000 ∧
     (multiBurnrateAlert ba sRes lRes aRes).long.window = ba.long.tdiv 1000000 ∧
     (multiBurnrateAlert ba sRes lRes aRes).For = ba.For.tdiv 1000000) ∧
    (burnrateCurrent (.error ()) = FP.fin (-1) ∧
     alertState (.error ()) = "inactive" ∧
     (∀ v, (∀ s, v ≠ PromValue.vector [s]) →
        burnrateCurrent (.ok v) = FP.fin (-1))) ∧
    (∀ res, alertState res ≠ "inactive" ↔
      ∃ s, res = .ok (PromValue.vector [s]) ∧ s.value = FP.fin 1 ∧
        (labelGet s.metric "alertstate" = "pending" ∨
         labelGet s.metric "alertstate" = "firing") ∧
        alertState res = labelGet s.metric "alertstate") := by
  refine ⟨⟨rfl, rfl, rfl⟩, ⟨rfl, rfl, rfl⟩, ⟨rfl, rfl, ?_⟩, ?_⟩
  · intro v hv
    cases v with
    | vector l =>
        match l with
        | [] => rfl
        | [s] => exact absurd rfl (hv s)
        | s :: s' :: rest => rfl
    | matrix l => rfl
    | scalar q => rfl
  · intro res
    constructor
    · intro hne
      cases res with
      | error e => exact absurd rfl hne
      | ok v =>
          cases v with
          | vector l =>
              match l with
              | [] => exact absurd rfl hne
              | [s] =>
                  by_cases h1 : s.value = FP.fin 1
                  · by_cases hp : labelGet s.metric "alertstate" = "pending"
                    · exact ⟨s, rfl, h1, Or.inl hp,
                        by simp [alertState, h1, hp]⟩
                    · by_cases hf : labelGet s.metric "alertstate" = "firing"
                      · exact ⟨s, rfl, h1, Or.inr hf,
                          by simp [alertState, h1, hp, hf]⟩
                      · exact absurd (by simp [alertState, h1, hp, hf]) hne
                  · exact absurd (by simp [alertState, h1]) hne
              | s :: s' :: rest => exact absurd rfl hne
          | matrix l => exact absurd rfl hne
          | scalar q => exact absurd rfl hne
    · rintro ⟨s, hres, h1, hlab, -⟩
      subst hres
      rcases hlab with hp | hf
      · simp [alertState, h1, hp]
      · by_cases hp : labelGet s.metric "alertstate" = "pending"
        · simp [alertState, h1, hp]
        · simp [alertState, h1, hp, hf]

/-- Witness for C4: an errored short branch leaves `current = -1` while a
single-sample long branch and a firing ALERTS result are still honoured;
a two-series ALERTS result leaves the state `inactive`. -/
theorem multiBurnrateAlert_spec_witness :
    (multiBurnrateAlert
        { severity := "critical", For := 60000000000, factor := 14,
          short := 300000000000, long := 3600000000000,
          queryShort := "qs", queryLong := "ql" }
        (.error ())
        (.ok (.vector [{ metric := [], value := FP.fin 2 }]))
        (.ok (.vector [{ metric := [("alertstate", "firing")],
                         value := FP.fin 1 }]))).short.current =
      burnrateCurrent (.error ()) ∧
    burnrateCurrent (Except.error ()) = FP.fin (-1) ∧
    (multiBurnrateAlert
        { severity := "critical", For := 60000000000, factor := 14,
          short := 300000000000, long := 3600000000000,
          queryShort := "qs", queryLong := "ql" }
        (.error ())
        (.ok (.vector [{ metric := [], value := FP.fin 2 }]))
        (.ok (.vector [{ metric := [("alertstate", "firing")],
                         value := FP.fin 1 }]))).short.window =
      (300000000000 : Int).tdiv 1000000 ∧
    burnrateCurrent (.ok (PromValue.scalar (FP.fin 3))) = FP.fin (-1) ∧
    alertState
        (.ok (.vector [{ metric := [("alertstate", "firing")], value := FP.fin 1 }]))
      ≠ "inactive" :=
  ⟨(multiBurnrateAlert_spec
      { severity := "critical", For := 60000000000, factor := 14,
        short := 300000000000, long := 3600000000000,
        queryShort := "qs", queryLong := "ql" }
      (.error ())
      (.ok (.vector [{ metric := [], value := FP.fin 2 }]))
      (.ok (.vector [{ metric := [("alertstate", "firing")],
                       value := FP.fin 1 }]))).1.1,
   (multiBurnrateAlert_spec
      { severity := "critical", For := 60000000000, factor := 14,
        short := 300000000000, long := 3600000000000,
        queryShort := "qs", queryLong := "ql" }
      (.error ()) (.error ()) (.error ())).2.2.1.1,
   (multiBurnrateAlert_spec
      { severity := "critical", For := 60000000000, factor := 14,
        short := 300000000000, long := 3600000000000,
        queryShort := "qs", queryLong := "ql" }
      (.error ())
      (.ok (.vector [{ metric := [], value := FP.fin 2 }]))
      (.ok (.vector [{ metric := [("alertstate", "firing")],
                       value := FP.fin 1 }]))).2.1.1,
   (multiBurnrateAlert_spec
      { severity := "critical", For := 60000000000, factor := 14,
        short := 300000000000, long := 3600000000000,
        queryShort := "qs", queryLong := "ql" }
      (.error ()) (.error ()) (.error ())).2.2.1.2.2
     (PromValue.scalar (FP.fin 3)) (fun s => by simp),
   ((multiBurnrateAlert_spec
      { severity := "critical", For := 60000000000, factor := 14,
        short := 300000000000, long := 3600000000000,
        queryShort := "qs", queryLong := "ql" }
      (.error ()) (.error ()) (.error ())).2.2.2
      (.ok (.vector [{ metric := [("alertstate", "firing")],
                       value := FP.fin 1 }]))).mpr
     ⟨{ metric := [("alertstate", "firing")], value := FP.fin 1 }, rfl, rfl,
      Or.inr (by rfl), by rfl⟩⟩

/-! ### Lemmas towards matrixToValues -/

theorem getD_replicate_zero (n j : ℕ) :
    (List.replicate n (0 : ℚ)).getD j 0 = 0 := by
  simp [List.getD_eq_getElem?_getD]

theorem getD_set_ne {l : List ℚ} {i j : ℕ} (h : i ≠ j) (v : ℚ) :
    (l.set i v).getD j 0 = l.getD j 0 := by
  simp [List.getD_eq_getElem?_getD, List.getElem?_set_ne h]

theorem insertKey_any_iff (t : Int) (acc : List (Int × List ℚ)) :
    (acc.any (fun e => e.1 == t)) = true ↔ t ∈ acc.map Prod.fst := by
  simp [List.any_eq_true, List.mem_map]

theorem insertKey_pos {t : Int} {acc : List (Int × List ℚ)} (n : ℕ)
    (h : t ∈ acc.map Prod.fst) : insertKey n t acc = acc := by
  rw [insertKey, if_pos ((insertKey_any_iff t acc).mpr h)]

theorem insertKey_neg {t : Int} {acc : List (Int × List ℚ)} (n : ℕ)
    (h : t ∉ acc.map Prod.fst) :
    insertKey n t acc = acc ++ [(t, List.replicate n 0)] := by
  rw [insertKey, if_neg (fun hc => h ((insertKey_any_iff t acc).mp hc))]

theorem mem_keys_insertKey {t' t : Int} {acc : List (Int × List ℚ)} (n : ℕ) :
    t' ∈ (insertKey n t acc).map Prod.fst ↔
      t' ∈ acc.map Prod.fst ∨ t' = t := by
  by_cases h : t ∈ acc.map Prod.fst
  · rw [insertKey_pos n h]
    constructor
    · exact Or.inl
    · rintro (h' | h')
      · exact h'
      · rw [h']; exact h
  · rw [insertKey_neg n h]
    simp

theorem nodup_keys_insertKey {t : Int} {acc : List (Int × List ℚ)} (n : ℕ)
    (h : (acc.map Prod.fst).Nodup) :
    ((insertKey n t acc).map Prod.fst).Nodup := by
  by_cases ht : t ∈ acc.map Prod.fst
  · rw [insertKey_pos n ht]; exact h
  · rw [insertKey_neg n ht]
    simp [List.nodup_append, h, ht]

theorem mem_insertKey_elim {e : Int × List ℚ} {t : Int}
    {acc : List (Int × List ℚ)} {n : ℕ} (h : e ∈ insertKey n t acc) :
    e ∈ acc ∨ e = (t, List.replicate n 0) := by
  by_cases ht : t ∈ acc.map Prod.fst
  · rw [insertKey_pos n ht] at h; exact Or.inl h
  · rw [insertKey_neg n ht] at h
    rcases List.mem_append.mp h with h | h
    · exact Or.inl h
    · exact Or.inr (List.mem_singleton.mp h)

theorem keys_setVal (t : Int) (i : ℕ) (v : ℚ) (acc : List (Int × List ℚ)) :
    (setVal t i v acc).map Prod.fst = acc.map Prod.fst := by
  rw [setVal, List.map_map]
  exact List.map_congr_left (fun e _ => by by_cases h : e.1 = t <;> simp [h])

theorem mem_setVal_elim {e' : Int × List ℚ} {t : Int} {i : ℕ} {v : ℚ}
    {acc : List (Int × List ℚ)} (h : e' ∈ setVal t i v acc) :
    (e' ∈ acc ∧ e'.1 ≠ t) ∨ ∃ e ∈ acc, e.1 = t ∧ e' = (t, e.2.set i v) := by
  obtain ⟨e, he, hmap⟩ := List.mem_map.mp h
  by_cases ht : e.1 = t
  · rw [if_pos ht] at hmap
    exact Or.inr ⟨e, he, ht, by rw [← hmap, ht]⟩
  · rw [if_neg ht] at hmap
    subst hmap
    exact Or.inl ⟨he, ht⟩

theorem addPair_length_inv {n i : ℕ} {acc : List (Int × List ℚ)}
    {p : SamplePair} (hinv : ∀ e ∈ acc, e.2.length = n) :
    ∀ e' ∈ addPair n i acc p, e'.2.length = n := by
  intro e' he'
  have hins : ∀ e'' ∈ insertKey n (tsSec p.1) acc, e''.2.length = n := by
    intro e'' he''
    rcases mem_insertKey_elim he'' with h | h
    · exact hinv _ h
    · rw [h]; simp
  rw [addPair] at he'
  cases hp : p.2 with
  | none => rw [hp] at he'; exact hins _ he'
  | some v =>
      rw [hp] at he'
      rcases mem_setVal_elim he' with ⟨h, -⟩ | ⟨e, he, -, hq⟩
      · exact hins _ h
      · rw [hq]
        simpa using hins _ he

theorem addPair_keys_sub {n i : ℕ} {acc : List (Int × List ℚ)}
    {p : SamplePair} :
    acc.map Prod.fst ⊆ (addPair n i acc p).map Prod.fst := by
  intro t ht
  rw [addPair]
  cases hp : p.2 with
  | none => exact (mem_keys_insertKey n).mpr (Or.inl ht)
  | some v =>
      rw [keys_setVal]
      exact (mem_keys_insertKey n).mpr (Or.inl ht)

theorem addPair_keys_self {n i : ℕ} {acc : List (Int × List ℚ)}
    {p : SamplePair} :
    tsSec p.1 ∈ (addPair n i acc p).map Prod.fst := by
  rw [addPair]
  cases hp : p.2 with
  | none => exact (mem_keys_insertKey n).mpr (Or.inr rfl)
  | some v =>
      rw [keys_setVal]
      exact (mem_keys_insertKey n).mpr (Or.inr rfl)

theorem addPair_keys_iff {n i : ℕ} {acc : List (Int × List ℚ)}
    {p : SamplePair} {t' : Int} :
    t' ∈ (addPair n i acc p).map Prod.fst ↔
      t' ∈ acc.map Prod.fst ∨ t' = tsSec p.1 := by
  rw [addPair]
  cases hp : p.2 with
  | none => exact mem_keys_insertKey n
  | some v =>
      rw [keys_setVal]
      exact mem_keys_insertKey n

theorem addPair_keys_nodup {n i : ℕ} {acc : List (Int × List ℚ)}
    {p : SamplePair} (h : (acc.map Prod.fst).Nodup) :
    ((addPair n i acc p).map Prod.fst).Nodup := by
  rw [addPair]
  cases hp : p.2 with
  | none => exact nodup_keys_insertKey n h
  | some v =>
      rw [keys_setVal]
      exact nodup_keys_insertKey n h

theorem addPair_valProv {m : List PromStream} {n i : ℕ}
    {acc : List (Int × List ℚ)} {p : SamplePair} {s : PromStream}
    (hs : m.get? i = some s) (hp : p ∈ s.values)
    (hinv : ∀ e ∈ acc, ∀ j, e.2.getD j 0 ≠ 0 →
      ∃ s' , m.get? j = some s' ∧ ∃ q ∈ s'.values, tsSec q.1 = e.1) :
    ∀ e' ∈ addPair n i acc p, ∀ j, e'.2.getD j 0 ≠ 0 →
      ∃ s', m.get? j = some s' ∧ ∃ q ∈ s'.values, tsSec q.1 = e'.1 := by
  intro e' he' j hj
  have hins : ∀ e'' ∈ insertKey n (tsSec p.1) acc, ∀ j', e''.2.getD j' 0 ≠ 0 →
      ∃ s', m.get? j' = some s' ∧ ∃ q ∈ s'.values, tsSec q.1 = e''.1 := by
    intro e'' he'' j' hj'
    rcases mem_insertKey_elim he'' with h | h
    · exact hinv _ h j' hj'
    · rw [h] at hj'
      exact absurd (getD_replicate_zero n j') hj'
  rw [addPair] at he'
  cases hpv : p.2 with
  | none => rw [hpv] at he'; exact hins _ he' j hj
  | some v =>
      rw [hpv] at he'
      rcases mem_setVal_elim he' with ⟨h, -⟩ | ⟨e, he, hkey, hq⟩
      · exact hins _ h j hj
      · by_cases hij : i = j
        · subst hij
          refine ⟨s, hs, p, hp, ?_⟩
          rw [hq]
        · rw [hq] at hj
          simp only at hj
          rw [getD_set_ne hij] at hj
          obtain ⟨s', hs', q, hq', hts⟩ := hins _ he j hj
          refine ⟨s', hs', q, hq', ?_⟩
          rw [hq, hts, hkey]

theorem addStream_length_inv {n i : ℕ} {acc : List (Int × List ℚ)}
    {values : List SamplePair} (hinv : ∀ e ∈ acc, e.2.length = n) :
    ∀ e' ∈ addStream n i acc values, e'.2.length = n := by
  induction values generalizing acc with
  | nil => exact hinv
  | cons p rest ih => exact ih (addPair_length_inv hinv)

theorem addStream_keys_iff {n i : ℕ} {acc : List (Int × List ℚ)}
    {values : List SamplePair} {t' : Int} :
    t' ∈ (addStream n i acc values).map Prod.fst ↔
      t' ∈ acc.map Prod.fst ∨ ∃ p ∈ values, t' = tsSec p.1 := by
  induction values generalizing acc with
  | nil => simp [addStream]
  | cons p rest ih =>
      rw [addStream, List.foldl_cons]
      constructor
      · intro h
        rcases (@ih (addPair n i acc p)).mp h with h | ⟨q, hq, ht⟩
        · rcases addPair_keys_iff.mp h with h | h
          · exact Or.inl h
          · exact Or.inr ⟨p, List.mem_cons_self _ _, h⟩
        · exact Or.inr ⟨q, List.mem_cons_of_mem _ hq, ht⟩
      · intro h
        rcases h with h | ⟨q, hq, ht⟩
        · exact (@ih (addPair n i acc p)).mpr
            (Or.inl (addPair_keys_sub h))
        · rcases List.mem_cons.mp hq with hq | hq
          · have ht' : t' = tsSec p.1 := by rw [ht, hq]
            exact (@ih (addPair n i acc p)).mpr
              (Or.inl (by rw [ht']; exact addPair_keys_self))
          · exact (@ih (addPair n i acc p)).mpr (Or.inr ⟨q, hq, ht⟩)

theorem addStream_keys_nodup {n i : ℕ} {acc : List (Int × List ℚ)}
    {values : List SamplePair} (h : (acc.map Prod.fst).Nodup) :
    ((addStream n i acc values).map Prod.fst).Nodup := by
  induction values generalizing acc with
  | nil => exact h
  | cons p rest ih => exact ih (addPair_keys_nodup h)

theorem addStream_valProv {m : List PromStream} {n i : ℕ}
    {acc : List (Int × List ℚ)} {values : List SamplePair} {s : PromStream}
    (hs : m.get? i = some s) (hsub : ∀ p ∈ values, p ∈ s.values)
    (hinv : ∀ e ∈ acc, ∀ j, e.2.getD j 0 ≠ 0 →
      ∃ s', m.get? j = some s' ∧ ∃ q ∈ s'.values, tsSec q.1 = e.1) :
    ∀ e' ∈ addStream n i acc values, ∀ j, e'.2.getD j 0 ≠ 0 →
      ∃ s', m.get? j = some s' ∧ ∃ q ∈ s'.values, tsSec q.1 = e'.1 := by
  induction values generalizing acc with
  | nil => exact hinv
  | cons p rest ih =>
      exact ih (fun q hq => hsub q (List.mem_cons_of_mem _ hq))
        (addPair_valProv hs (hsub p (List.mem_cons_self _ _)) hinv)

theorem buildPairsAux_length_inv {n : ℕ} {l : List PromStream} {i : ℕ}
    {acc : List (Int × List ℚ)} (hinv : ∀ e ∈ acc, e.2.length = n) :
    ∀ e' ∈ buildPairsAux n i l acc, e'.2.length = n := by
  induction l generalizing i acc with
  | nil => exact hinv
  | cons s rest ih => exact ih (addStream_length_inv hinv)

theorem buildPairsAux_keys_iff {n : ℕ} {l : List PromStream} {i : ℕ}
    {acc : List (Int × List ℚ)} {t' : Int} :
    t' ∈ (buildPairsAux n i l acc).map Prod.fst ↔
      t' ∈ acc.map Prod.fst ∨ ∃ s ∈ l, ∃ p ∈ s.values, t' = tsSec p.1 := by
  induction l generalizing i acc with
  | nil => simp [buildPairsAux]
  | cons s rest ih =>
      rw [buildPairsAux]
      constructor
      · intro h
        rcases ih.mp h with h | ⟨s', hs', p, hp, ht⟩
        · rcases addStream_keys_iff.mp h with h | ⟨p, hp, ht⟩
          · exact Or.inl h
          · exact Or.inr ⟨s, List.mem_cons_self _ _, p, hp, ht⟩
        · exact Or.inr ⟨s', List.mem_cons_of_mem _ hs', p, hp, ht⟩
      · intro h
        rcases h with h | ⟨s', hs', p, hp, ht⟩
        · exact ih.mpr (Or.inl (addStream_keys_iff.mpr (Or.inl h)))
        · rcases List.mem_cons.mp hs' with hs' | hs'
          · subst hs'
            exact ih.mpr (Or.inl (addStream_keys_iff.mpr (Or.inr ⟨p, hp, ht⟩)))
          · exact ih.mpr (Or.inr ⟨s', hs', p, hp, ht⟩)

theorem buildPairsAux_keys_nodup {n : ℕ} {l : List PromStream} {i : ℕ}
    {acc : List (Int × List ℚ)} (h : (acc.map Prod.fst).Nodup) :
    ((buildPairsAux n i l acc).map Prod.fst).Nodup := by
  induction l generalizing i acc with
  | nil => exact h
  | cons s rest ih => exact ih (addStream_keys_nodup h)

theorem buildPairsAux_valProv {m : List PromStream} {n : ℕ}
    {l : List PromStream} {i : ℕ} {acc : List (Int × List ℚ)}
    (hl : l = m.drop i)
    (hinv : ∀ e ∈ acc, ∀ j, e.2.getD j 0 ≠ 0 →
      ∃ s', m.get? j = some s' ∧ ∃ q ∈ s'.values, tsSec q.1 = e.1) :
    ∀ e' ∈ buildPairsAux n i l acc, ∀ j, e'.2.getD j 0 ≠ 0 →
      ∃ s', m.get? j = some s' ∧ ∃ q ∈ s'.values, tsSec q.1 = e'.1 := by
  induction l generalizing i acc with
  | nil => exact hinv
  | cons s rest ih =>
      have hs : m.get? i = some s := by
        have h0 : (m.drop i).get? 0 = some s := by rw [← hl]; rfl
        rw [List.get?_eq_getElem?] at h0 ⊢
        rw [List.getElem?_drop] at h0
        simpa using h0
      have hrest : rest = m.drop (i + 1) := by
        have h2 : (m.drop i).drop 1 = m.drop (i + 1) := List.drop_drop 1 i m
        rw [← hl] at h2
        simpa using h2
      exact ih hrest (addStream_valProv hs (fun p hp => hp) hinv)

theorem buildPairs_length_inv {m : List PromStream} :
    ∀ e ∈ buildPairs m, e.2.length = m.length :=
  buildPairsAux_length_inv (by simp)

theorem buildPairs_keys_nodup (m : List PromStream) :
    ((buildPairs m).map Prod.fst).Nodup :=
  buildPairsAux_keys_nodup (by simp)

theorem buildPairs_keys_iff {m : List PromStream} {t : Int} :
    t ∈ (buildPairs m).map Prod.fst ↔ t ∈ allSecs m := by
  rw [buildPairs, buildPairsAux_keys_iff, allSecs]
  constructor
  · rintro (h | ⟨s, hs, p, hp, ht⟩)
    · simp at h
    · rw [List.mem_flatten]
      exact ⟨s.values.map (fun p => tsSec p.1), List.mem_map.mpr ⟨s, hs, rfl⟩,
        List.mem_map.mpr ⟨p, hp, ht.symm⟩⟩
  · intro h
    rw [List.mem_flatten] at h
    obtain ⟨L, hL, htL⟩ := h
    obtain ⟨s, hs, rfl⟩ := List.mem_map.mp hL
    obtain ⟨p, hp, ht⟩ := List.mem_map.mp htL
    exact Or.inr ⟨s, hs, p, hp, ht.symm⟩

theorem buildPairs_valProv {m : List PromStream} :
    ∀ e ∈ buildPairs m, ∀ j, e.2.getD j 0 ≠ 0 →
      ∃ s', m.get? j = some s' ∧ ∃ q ∈ s'.values, tsSec q.1 = e.1 :=
  buildPairsAux_valProv (by simp) (by simp)

theorem buildPairs_zero_of_no_sample {m : List PromStream}
    {e : Int × List ℚ} (he : e ∈ buildPairs m) {j : ℕ} {s : PromStream}
    (hs : m.get? j = some s) (hno : ∀ p ∈ s.values, tsSec p.1 ≠ e.1) :
    e.2.getD j 0 = 0 := by
  by_contra hne
  obtain ⟨s', hs', q, hq, ht⟩ := buildPairs_valProv e he j hne
  rw [hs] at hs'
  injection hs' with hs'
  subst hs'
  exact hno q hq ht

/-- C3: for a single series with no NaN samples, `matrixToValues` emits two
rows — millisecond timestamps truncated to seconds in original order, and
the sample values unchanged; for two or more series it emits one timestamp
row plus one value row per series, whose common column count is the number
of distinct (second-truncated) timestamps in the union over all series,
with the timestamp row strictly ascending, every column coherently drawn
from one `pairs` entry (the lock-step joint sort keeps value rows aligned
with the timestamp row), and a zero at every column whose timestamp has no
sample in that series. -/
theorem matrixToValues_spec :
    (∀ stream : PromStream, (∀ p ∈ stream.values, p.2 ≠ none) →
      ∃ ts vals, matrixToValues [stream] = [ts, vals] ∧
        ts = stream.values.map (fun p => ((tsSec p.1 : Int) : ℚ)) ∧
        vals.map Option.some = stream.values.map Prod.snd ∧
        vals.length = stream.values.length) ∧
    (∀ m : List PromStream, 2 ≤ m.length →
      ∃ r0 rows, matrixToValues m = r0 :: rows ∧
        rows.length = m.length ∧
        (∀ row ∈ matrixToValues m, row.length = (allSecs m).toFinset.card) ∧
        List.Pairwise (· < ·) r0 ∧
        (∀ c, c < r0.length →
          ∃ e ∈ buildPairs m, r0.get? c = some ((e.1 : Int) : ℚ) ∧
            ∀ i, i < m.length →
              (rows.get? i).bind (fun row => row.get? c) =
                some (e.2.getD i 0)) ∧
        (∀ c, c < r0.length → ∀ i s, m.get? i = some s →
          (∀ p ∈ s.values, ((tsSec p.1 : Int) : ℚ) ≠ r0.getD c 0) →
          (rows.getD i []).getD c 0 = 0)) := by
  constructor
  · intro stream hnn
    refine ⟨_, _, rfl, rfl, ?_, by simp⟩
    rw [List.map_map]
    refine List.map_congr_left (fun p hp => ?_)
    cases hpv : p.2 with
    | none => exact absurd hpv (hnn p hp)
    | some v => simp [hpv]
  · intro m hm
    match m, hm with
    | a :: b :: r, _ =>
    set M : List PromStream := a :: b :: r with hM
    have hdef : matrixToValues M =
        (((buildPairs M).mergeSort (fun a b => decide (a.1 ≤ b.1))).map
          (fun e => ((e.1 : Int) : ℚ))) ::
        (List.range M.length).map (fun i =>
          ((buildPairs M).mergeSort (fun a b => decide (a.1 ≤ b.1))).map
            (fun e => e.2.getD i 0)) := rfl
    set ps : List (Int × List ℚ) :=
      (buildPairs M).mergeSort (fun a b => decide (a.1 ≤ b.1)) with hps
    have hperm : ps.Perm (buildPairs M) := List.mergeSort_perm _ _
    have hsorted : List.Pairwise (fun e f : Int × List ℚ => e.1 ≤ f.1) ps := by
      have h := @List.sorted_mergeSort (Int × List ℚ)
        (fun e f => decide (e.1 ≤ f.1))
        (fun x y z h1 h2 => by
          simp only [decide_eq_true_eq] at h1 h2 ⊢
          omega)
        (fun x y => by
          simp only [Bool.or_eq_true, decide_eq_true_eq]
          exact Int.le_total _ _)
        (buildPairs M)
      exact h.imp (fun h => by simpa using h)
    have hkeysnodup : (ps.map Prod.fst).Nodup :=
      ((hperm.map Prod.fst).nodup_iff).mpr (buildPairs_keys_nodup M)
    have hne : List.Pairwise (fun e f : Int × List ℚ => e.1 ≠ f.1) ps :=
      List.pairwise_map.mp hkeysnodup
    have hlt : List.Pairwise (fun e f : Int × List ℚ => e.1 < f.1) ps :=
      (hsorted.and hne).imp (fun h => lt_of_le_of_ne h.1 h.2)
    have hlen : ps.length = (allSecs M).toFinset.card := by
      have h1 : ps.length = (buildPairs M).length := hperm.length_eq
      have h2 : ((buildPairs M).map Prod.fst).toFinset =
          (allSecs M).toFinset := by
        ext t
        simp only [List.mem_toFinset]
        exact buildPairs_keys_iff
      have h3 : ((buildPairs M).map Prod.fst).toFinset.card =
          ((buildPairs M).map Prod.fst).length :=
        List.toFinset_card_of_nodup (buildPairs_keys_nodup M)
      rw [h1, ← List.length_map (buildPairs M) Prod.fst, ← h3, h2]
    refine ⟨_, _, hdef, by simp, ?_, ?_, ?_, ?_⟩
    · intro row hrow
      rw [hdef] at hrow
      rcases List.mem_cons.mp hrow with hrow | hrow
      · rw [hrow]
        simpa using hlen
      · obtain ⟨i, -, hrow⟩ := List.mem_map.mp hrow
        rw [← hrow]
        simpa using hlen
    · exact List.pairwise_map.mpr
        (hlt.imp (fun h => by exact_mod_cast h))
    · intro c hc
      rw [List.length_map] at hc
      have hce : ps[c]? = some ps[c] := List.getElem?_eq_getElem hc
      refine ⟨ps[c], hperm.mem_iff.mp (ps.getElem_mem hc), ?_, ?_⟩
      · rw [List.get?_eq_getElem?, List.getElem?_map, hce]
        rfl
      · intro i hi
        have hr : ((List.range M.length).map (fun i =>
            ps.map (fun e => e.2.getD i 0)))[i]? =
            some (ps.map (fun e => e.2.getD i 0)) := by
          rw [List.getElem?_map, List.getElem?_range hi]
          rfl
        rw [List.get?_eq_getElem?, hr, Option.some_bind]
        rw [List.get?_eq_getElem?, List.getElem?_map, hce]
        rfl
    · intro c hc i s hs hno
      rw [List.length_map] at hc
      have hce : ps[c]? = some ps[c] := List.getElem?_eq_getElem hc
      have hkey : (ps.map (fun e => ((e.1 : Int) : ℚ))).getD c 0 =
          ((ps[c].1 : Int) : ℚ) := by
        rw [List.getD_eq_getElem?_getD, List.getElem?_map, hce]
        rfl
      have hi : i < M.length := by
        rw [List.get?_eq_getElem?] at hs
        exact (List.getElem?_eq_some.mp hs).1
      have hno' : ∀ p ∈ s.values, tsSec p.1 ≠ ps[c].1 := by
        intro p hp heq
        exact hno p hp (by rw [hkey, heq])
      have hzero : ps[c].2.getD i 0 = 0 :=
        buildPairs_zero_of_no_sample
          (hperm.mem_iff.mp (ps.getElem_mem hc)) hs hno'
      have hrow : ((List.range M.length).map (fun i =>
          ps.map (fun e => e.2.getD i 0))).getD i [] =
          ps.map (fun e => e.2.getD i 0) := by
        rw [List.getD_eq_getElem?_getD, List.getElem?_map,
          List.getElem?_range hi]
        rfl
      rw [hrow, List.getD_eq_getElem?_getD, List.getElem?_map, hce]
      simpa using hzero

/-- Witness for C3: a two-sample NaN-free single series is emitted
losslessly, and a two-series matrix on disjoint timestamps satisfies the
union/ascending/zero-fill/alignment properties. -/
theorem matrixToValues_spec_witness :
    (∃ ts vals,
      matrixToValues [{ metric := [], values := [(1000, some 1), (2000, some 2)] }] =
        [ts, vals] ∧
      ts = [(1000, (some 1 : Option ℚ)), (2000, some 2)].map
        (fun p => ((tsSec p.1 : Int) : ℚ)) ∧
      vals.map Option.some =
        [(1000, (some 1 : Option ℚ)), (2000, some 2)].map Prod.snd ∧
      vals.length = [(1000, (some 1 : Option ℚ)), (2000, some 2)].length) ∧
    (∃ r0 rows,
      matrixToValues [{ metric := [], values := [(1000, some 1)] },
        { metric := [], values := [(2500, some 3)] }] = r0 :: rows ∧
      rows.length = 2 ∧
      (∀ row ∈ matrixToValues [{ metric := [], values := [(1000, some 1)] },
          { metric := [], values := [(2500, some 3)] }],
        row.length = (allSecs [{ metric := [], values := [(1000, some 1)] },
          { metric := [], values := [(2500, some 3)] }]).toFinset.card) ∧
      List.Pairwise (· < ·) r0 ∧
      (∀ c, c < r0.length →
        ∃ e ∈ buildPairs [{ metric := [], values := [(1000, some 1)] },
            { metric := [], values := [(2500, some 3)] }],
          r0.get? c = some ((e.1 : Int) : ℚ) ∧
          ∀ i, i < 2 →
            (rows.get? i).bind (fun row => row.get? c) =
              some (e.2.getD i 0)) ∧
      (∀ c, c < r0.length → ∀ i s,
        ([{ metric := [], values := [(1000, some 1)] },
          { metric := [], values := [(2500, some 3)] }] :
            List PromStream).get? i = some s →
        (∀ p ∈ s.values, ((tsSec p.1 : Int) : ℚ) ≠ r0.getD c 0) →
        (rows.getD i []).getD c 0 = 0)) :=
  ⟨matrixToValues_spec.1
      { metric := [], values := [(1000, some 1), (2000, some 2)] } (by decide),
   matrixToValues_spec.2
      [{ metric := [], values := [(1000, some 1)] },
       { metric := [], values := [(2500, some 3)] }] (by decide)⟩

end Pyrra
